import Mathlib

/-!
A shallow embedding of the stm32ld loader driver (src/main.c) together with
theorems about its observable behaviour: the version/chip-id compatibility
gates, the handshake retry loop, the progress-reporting threshold policy,
the argument-checking phase and the orchestration order of the bootloader
commands issued by one session.
-/

namespace Stm32ld

/-! ## Constants from main.c -/

/-- The BL_MKVER macro (main.c:18): packs a bootloader version pair. -/
def BL_MKVER (major minor : Nat) : Nat := major * 256 + minor

/-- BL_MINVERSION (main.c:16-19): minimum supported bootloader version 2.1. -/
def BL_MINVERSION : Nat := BL_MKVER 2 1

/-- The SUPPORTED_CHIP_IDS array (main.c:22-23); the final 0 is the
terminating sentinel of the array, not a supported id. -/
def SUPPORTED_CHIP_IDS : List Nat := [0x0410, 0x0414, 0x0413, 0x0440, 0]

/-- The chip-id scan loop of main.c:172-186: walk the array until the 0
sentinel; accept on a match, reject when the sentinel is reached.  The
empty-list case cannot arise for the sentinel-terminated array. -/
def chipIdScan : List Nat → Nat → Bool
  | [], _ => false
  | c :: rest, v => if c = 0 then false else if c = v then true else chipIdScan rest v

/-- The compatibility decision of main.c:164-187 for a reported chip id. -/
def chipIdAccepted (v : Nat) : Bool := chipIdScan SUPPORTED_CHIP_IDS v

/-! ## The progress callback writeh_progress (main.c:38-49)

The C function keeps the 10 percent threshold in a file-scoped static
variable expected_next, initialised to 10.  We thread that state explicitly
over the sequence of invocations and collect the thresholds printed. -/

/-- One run of writeh_progress over a list of wrote arguments, starting
from threshold state en; returns the list of thresholds printed
(main.c:44-48: print and bump the threshold when wrote*100/fpsize reaches
it, else print nothing). -/
def progressTrace (fpsize : Nat) : Nat → List Nat → List Nat
  | _, [] => []
  | en, w :: ws =>
    if en ≤ w * 100 / fpsize then en :: progressTrace fpsize (en + 10) ws
    else progressTrace fpsize en ws

/-- The thresholds printed over a whole programming run, with the initial
static state expected_next = 10 (main.c:42). -/
def progressRun (fpsize : Nat) (writes : List Nat) : List Nat :=
  progressTrace fpsize 10 writes

/-! ## The chunked flash-write loop

Modelled from the spec: the transfer loop of stm32_write_flash
(FlashProgrammer, spec section 4.5) is not part of src/; only its two
callbacks writeh_read_data and writeh_progress (main.c:29-49) are.  Per
the spec the loop repeatedly pulls up to a fixed maximum chunk (256 bytes)
from the data source, stops on a zero-length read, and invokes the
progress callback with the accumulated byte count after each written
chunk.  The data source writeh_read_data returns min(len, remaining) bytes
from the opened file, so a file of fpsize bytes yields the chunk sequence
below.  Fuel is fpsize + 1, enough for every step to consume at least one
byte; the loop always terminates through the zero-length-read test. -/
def flashWriteGo : Nat → Nat → Nat → List Nat
  | 0, _, _ => []
  | fuel + 1, remaining, written =>
    if remaining = 0 then []
    else
      let chunk := min 256 remaining
      (written + chunk) :: flashWriteGo fuel (remaining - chunk) (written + chunk)

/-- The list of bytesWritten values at which the progress callback is
invoked when programming a file of fpsize bytes; its length is the number
of write-memory commands issued. -/
def flashWriteRun (fpsize : Nat) : List Nat := flashWriteGo (fpsize + 1) fpsize 0

/-- Each progress invocation evaluates wrote * 100 / fpsize (main.c:41);
this is the list of divisors of those evaluations during one run. -/
def progressDivisorUses (fpsize : Nat) : List Nat :=
  (flashWriteRun fpsize).map (fun _ => fpsize)

/-! ## The session (main.c:54-251)

main is straight-line code: each stm32_* protocol call either succeeds or
makes the process exit with an error message.  We model the session as a
function of the device behaviour (which calls succeed, and the values the
device reports) producing the ordered list of bootloader commands issued
plus the outcome. -/

/-- One bootloader command issued by the session; sync is one stm32_init
attempt (one 0x7F handshake try). -/
inductive Event
  | sync
  | getVersion
  | getChipId
  | writeUnprotect
  | erase
  | extendedErase
  | writeFlash
  | go
  deriving DecidableEq

/-- The distinct fatal outcomes of main (each a distinct exit(1) site),
plus the two argument-check errors of main.c:94-107. -/
inductive SessionError
  | noPortArg
  | noFileArg
  | handshakeTimeout
  | versionReadFail
  | versionUnsupported
  | chipReadFail
  | chipUnsupported
  | unprotectFail
  | eraseFail
  | flashFail
  | goFail
  deriving DecidableEq

/-- The command-line derived switches that steer the session
(skip_flash after the argument-check phase, and send_go). -/
structure Params where
  skipFlash : Bool
  sendGo : Bool

/-- The device/transport behaviour the session runs against: how many
stm32_init attempts fail before one succeeds, whether each later call
succeeds, and the values the bootloader reports. -/
structure Device where
  syncFails : Nat
  versionOk : Bool
  major : Nat
  minor : Nat
  chipOk : Bool
  chipId : Nat
  unprotectOk : Bool
  eraseOk : Bool
  flashOk : Bool
  goOk : Bool

/-- The erase command selected at main.c:200-221: extended erase exactly
when the bootloader major version is 3. -/
def eraseEvt (major : Nat) : Event :=
  if major = 3 then Event.extendedErase else Event.erase

/-- The handshake retry loop of main.c:132-143, running against a device
whose first n stm32_init calls fail.  Returns (connected, number of
stm32_init attempts made).  The static counter timeout is incremented on
each failure and the loop aborts once it exceeds 60. -/
def connectLoop : Nat → Nat → Bool × Nat
  | 0, _ => (true, 1)
  | n + 1, timeout =>
    let t := timeout + 1
    if 60 < t then (false, 1)
    else
      let r := connectLoop n t
      (r.1, r.2 + 1)

/-- The optional go step (main.c:239-248): when requested, issue the go
command; its failure is the only remaining fatal outcome. -/
def goStep (goOk : Bool) : Option SessionError :=
  if goOk = false then some SessionError.goFail else none

/-- The commands issued after a successful handshake (main.c:145-250):
get version, check the minimum version, get chip id, check membership,
then unless flashing is skipped do write-unprotect, erase, program, and
finally the optional go command; the trace stops at the first failing
step. -/
def postTrace (p : Params) (d : Device) : List Event :=
  if d.versionOk = false then [Event.getVersion]
  else if BL_MKVER d.major d.minor < BL_MINVERSION then [Event.getVersion]
  else if d.chipOk = false then [Event.getVersion, Event.getChipId]
  else if chipIdAccepted d.chipId = false then [Event.getVersion, Event.getChipId]
  else if p.skipFlash = false then
    if d.unprotectOk = false then
      [Event.getVersion, Event.getChipId, Event.writeUnprotect]
    else if d.eraseOk = false then
      [Event.getVersion, Event.getChipId, Event.writeUnprotect, eraseEvt d.major]
    else if d.flashOk = false then
      [Event.getVersion, Event.getChipId, Event.writeUnprotect, eraseEvt d.major,
        Event.writeFlash]
    else if p.sendGo = true then
      [Event.getVersion, Event.getChipId, Event.writeUnprotect, eraseEvt d.major,
        Event.writeFlash, Event.go]
    else
      [Event.getVersion, Event.getChipId, Event.writeUnprotect, eraseEvt d.major,
        Event.writeFlash]
  else if p.sendGo = true then [Event.getVersion, Event.getChipId, Event.go]
  else [Event.getVersion, Event.getChipId]

/-- The outcome of the same post-handshake sequence (main.c:145-250),
following the identical chain of exits: the error of the first failing
step, or none when every issued command succeeded. -/
def postResult (p : Params) (d : Device) : Option SessionError :=
  if d.versionOk = false then some SessionError.versionReadFail
  else if BL_MKVER d.major d.minor < BL_MINVERSION then some SessionError.versionUnsupported
  else if d.chipOk = false then some SessionError.chipReadFail
  else if chipIdAccepted d.chipId = false then some SessionError.chipUnsupported
  else if p.skipFlash = false then
    if d.unprotectOk = false then some SessionError.unprotectFail
    else if d.eraseOk = false then some SessionError.eraseFail
    else if d.flashOk = false then some SessionError.flashFail
    else if p.sendGo = true then goStep d.goOk
    else none
  else if p.sendGo = true then goStep d.goOk
  else none

/-- The whole session from main.c:129 on: the handshake retry loop, then
the post-handshake sequence.  Returns the trace of issued commands and the
outcome (none means exit code 0). -/
def sessionRun (p : Params) (d : Device) : List Event × Option SessionError :=
  let c := connectLoop d.syncFails 0
  if c.1 = true then
    (List.replicate c.2 Event.sync ++ postTrace p d, postResult p d)
  else (List.replicate c.2 Event.sync, some SessionError.handshakeTimeout)

/-- The position of a command in the fixed order main issues commands;
used to state that every trace is ordered. -/
def rank : Event → Nat
  | Event.sync => 0
  | Event.getVersion => 1
  | Event.getChipId => 2
  | Event.writeUnprotect => 3
  | Event.erase => 4
  | Event.extendedErase => 4
  | Event.writeFlash => 5
  | Event.go => 6

/-- Commands that require the identity gates: erase (either kind), program
and go. -/
def privileged : Event → Bool
  | Event.erase => true
  | Event.extendedErase => true
  | Event.writeFlash => true
  | Event.go => true
  | _ => false

/-- Commands of the flashing phase: write-unprotect, erase (either kind)
and write-flash. -/
def flashCmd : Event → Bool
  | Event.writeUnprotect => true
  | Event.erase => true
  | Event.extendedErase => true
  | Event.writeFlash => true
  | _ => false

/-- The sessions that reach the erase step of main.c:200-221: handshake
succeeded, both identity gates passed, flashing not skipped, and
write-unprotect succeeded. -/
@[reducible] def reachesErase (p : Params) (d : Device) : Prop :=
  d.syncFails ≤ 60 ∧ d.versionOk = true ∧
  BL_MINVERSION ≤ BL_MKVER d.major d.minor ∧ d.chipOk = true ∧
  chipIdAccepted d.chipId = true ∧ p.skipFlash = false ∧ d.unprotectOk = true

/-- The argument-check phase of main.c:94-127.  Returns (error if any,
effective skip_flash flag, whether the firmware file was opened).  A C
string with first byte 0 is the empty string; strlen(file) == 1 together
with strncmp(file, "0", 1) == 0 is modelled on the character list of the
file argument. -/
def checkPhase (port file : String) (skipFlag : Bool) : Option SessionError × Bool × Bool :=
  if port = "" then (some SessionError.noPortArg, skipFlag, false)
  else if skipFlag = false then
    if port = "" then (some SessionError.noFileArg, skipFlag, false)
    else if file.length = 1 ∧ file.data.take 1 = [Char.ofNat 48] then (none, true, false)
    else (none, false, true)
  else (none, true, false)

/-- The whole program: argument checking, then the session.  Returns the
trace, the outcome, and whether the firmware file was opened. -/
def programRun (port file : String) (skipFlag sendGo : Bool) (d : Device) :
    List Event × Option SessionError × Bool :=
  match checkPhase port file skipFlag with
  | (some e, _, _) => ([], some e, false)
  | (none, skip, opened) =>
    let r := sessionRun { skipFlash := skip, sendGo := sendGo } d
    (r.1, r.2, opened)

/-! ## Helper lemmas -/

lemma chipIdAccepted_iff (v : Nat) :
    chipIdAccepted v = true ↔ (v = 0x0410 ∨ v = 0x0414 ∨ v = 0x0413 ∨ v = 0x0440) := by
  simp only [chipIdAccepted, SUPPORTED_CHIP_IDS, chipIdScan]
  split_ifs <;> simp_all
  omega

lemma connectLoop_eq (n : Nat) : ∀ t, t ≤ 60 →
    connectLoop n t = (decide (n + t ≤ 60), min (n + 1) (61 - t)) := by
  induction n with
  | zero =>
    intro t ht
    have h1 : decide (0 + t ≤ 60) = true := by simp; omega
    have h2 : min 1 (61 - t) = 1 := by omega
    simp only [connectLoop, h1, h2]
  | succ n ih =>
    intro t ht
    by_cases h : 60 < t + 1
    · have h1 : decide (n + 1 + t ≤ 60) = false := by simp; omega
      have h2 : min (n + 1 + 1) (61 - t) = 1 := by omega
      simp only [connectLoop, if_pos h, h1, h2]
    · have ht1 : t + 1 ≤ 60 := by omega
      have hrec := ih (t + 1) ht1
      have h1 : decide (n + (t + 1) ≤ 60) = decide (n + 1 + t ≤ 60) :=
        decide_eq_decide.mpr (by omega)
      have h2 : min (n + 1) (61 - (t + 1)) + 1 = min (n + 1 + 1) (61 - t) := by omega
      simp only [connectLoop, if_neg h, hrec, h1, h2]

lemma sessionRun_eq (p : Params) (d : Device) :
    sessionRun p d =
      if d.syncFails ≤ 60 then
        (List.replicate (min (d.syncFails + 1) 61) Event.sync ++ postTrace p d,
          postResult p d)
      else (List.replicate 61 Event.sync, some SessionError.handshakeTimeout) := by
  unfold sessionRun
  rw [connectLoop_eq d.syncFails 0 (by omega)]
  by_cases h : d.syncFails ≤ 60
  · simp [h]
  · have hm : min (d.syncFails + 1) (61 - 0) = 61 := by omega
    simp [h, hm]

lemma goStep_eq_some_iff (g : Bool) (e : SessionError) :
    goStep g = some e ↔ (g = false ∧ e = SessionError.goFail) := by
  unfold goStep
  split_ifs <;> simp_all [eq_comm]

lemma eraseEvt_cases (m : Nat) :
    eraseEvt m = Event.extendedErase ∨ eraseEvt m = Event.erase := by
  unfold eraseEvt
  split_ifs <;> simp

lemma postResult_ne_timeout (p : Params) (d : Device) :
    postResult p d ≠ some SessionError.handshakeTimeout := by
  unfold postResult
  split_ifs <;>
    first
      | exact fun h => Option.noConfusion h
      | exact fun h => nomatch Option.some.inj h
      | (unfold goStep
         split_ifs <;>
           first
             | exact fun h => Option.noConfusion h
             | exact fun h => nomatch Option.some.inj h)

lemma postTrace_count_sync (p : Params) (d : Device) :
    (postTrace p d).count Event.sync = 0 := by
  unfold postTrace
  split_ifs <;>
    first
      | rfl
      | (rcases eraseEvt_cases d.major with h | h <;> rw [h] <;> rfl)

lemma postResult_chipUnsupported_iff (p : Params) (d : Device) :
    postResult p d = some SessionError.chipUnsupported ↔
      (d.versionOk = true ∧ BL_MINVERSION ≤ BL_MKVER d.major d.minor ∧
       d.chipOk = true ∧ chipIdAccepted d.chipId = false) := by
  unfold postResult
  split_ifs <;> simp_all [Nat.not_lt, goStep_eq_some_iff]

lemma postResult_versionUnsupported_iff (p : Params) (d : Device) :
    postResult p d = some SessionError.versionUnsupported ↔
      (d.versionOk = true ∧ BL_MKVER d.major d.minor < BL_MINVERSION) := by
  unfold postResult
  split_ifs <;> simp_all [Nat.not_lt, goStep_eq_some_iff]

lemma postTrace_mem_getChipId (p : Params) (d : Device) :
    Event.getChipId ∈ postTrace p d ↔
      (d.versionOk = true ∧ BL_MINVERSION ≤ BL_MKVER d.major d.minor) := by
  unfold postTrace
  split_ifs <;> simp_all [Nat.not_lt]

lemma postTrace_count_extErase (p : Params) (d : Device) :
    (postTrace p d).count Event.extendedErase =
      (if d.versionOk = true ∧ BL_MINVERSION ≤ BL_MKVER d.major d.minor ∧
          d.chipOk = true ∧ chipIdAccepted d.chipId = true ∧ p.skipFlash = false ∧
          d.unprotectOk = true ∧ d.major = 3
       then 1 else 0) := by
  unfold postTrace
  split_ifs <;> by_cases hm : d.major = 3 <;>
    simp_all [Nat.not_lt, eraseEvt, List.count_cons] <;> omega

lemma postTrace_count_erase (p : Params) (d : Device) :
    (postTrace p d).count Event.erase =
      (if d.versionOk = true ∧ BL_MINVERSION ≤ BL_MKVER d.major d.minor ∧
          d.chipOk = true ∧ chipIdAccepted d.chipId = true ∧ p.skipFlash = false ∧
          d.unprotectOk = true ∧ ¬d.major = 3
       then 1 else 0) := by
  unfold postTrace
  split_ifs <;> by_cases hm : d.major = 3 <;>
    simp_all [Nat.not_lt, eraseEvt, List.count_cons] <;> omega

lemma pairwise_rank_replicate (n : Nat) :
    List.Pairwise (fun a b => rank a ≤ rank b) (List.replicate n Event.sync) := by
  induction n with
  | zero => exact List.Pairwise.nil
  | succ n ih =>
    rw [List.replicate_succ]
    refine List.Pairwise.cons (fun b hb => ?_) ih
    rw [List.eq_of_mem_replicate hb]

lemma postTrace_pairwise (p : Params) (d : Device) :
    List.Pairwise (fun a b => rank a ≤ rank b) (postTrace p d) := by
  unfold postTrace
  split_ifs <;>
    first
      | decide
      | (rcases eraseEvt_cases d.major with h | h <;> rw [h] <;> decide)

lemma postTrace_privileged (p : Params) (d : Device) :
    (postTrace p d).countP (fun e => privileged e) ≠ 0 →
      (d.versionOk = true ∧ BL_MINVERSION ≤ BL_MKVER d.major d.minor ∧
       d.chipOk = true ∧ chipIdAccepted d.chipId = true) := by
  unfold postTrace
  split_ifs <;> intro hc <;>
    first
      | exact absurd rfl hc
      | (refine ⟨?_, ?_, ?_, ?_⟩ <;> simp_all [Nat.not_lt])

lemma postTrace_writeFlash (p : Params) (d : Device) :
    Event.writeFlash ∈ postTrace p d →
      d.eraseOk = true ∧ eraseEvt d.major ∈ postTrace p d := by
  unfold postTrace
  split_ifs <;> intro hm <;>
    first
      | (exfalso; revert hm; decide)
      | (exfalso
         rcases eraseEvt_cases d.major with h | h <;> rw [h] at hm <;>
           revert hm <;> decide)
      | (refine ⟨by simp_all, ?_⟩; simp)

set_option maxRecDepth 4000 in
lemma postTrace_skip_mem (g : Bool) (d : Device) :
    ∀ a ∈ postTrace { skipFlash := true, sendGo := g } d,
      a = Event.getVersion ∨ a = Event.getChipId ∨ a = Event.go := by
  unfold postTrace
  split_ifs <;> intro a ha <;> simp_all <;> tauto

lemma sessionRun_skip_no_flashCmd (g : Bool) (d : Device) :
    ((sessionRun { skipFlash := true, sendGo := g } d).1.filter (fun e => flashCmd e)) = [] := by
  rw [List.filter_eq_nil_iff]
  intro a ha
  rw [sessionRun_eq] at ha
  by_cases h : d.syncFails ≤ 60
  · rw [if_pos h] at ha
    rcases List.mem_append.mp ha with h1 | h2
    · rw [List.eq_of_mem_replicate h1]; decide
    · rcases postTrace_skip_mem g d a h2 with h3 | h3 | h3 <;> rw [h3] <;> decide
  · rw [if_neg h] at ha
    rw [List.eq_of_mem_replicate ha]; decide

lemma checkPhase_zero_file (port : String) (skipFlag : Bool) :
    checkPhase port "0" skipFlag =
      (if port = "" then (some SessionError.noPortArg, skipFlag, false)
       else (none, true, false)) := by
  unfold checkPhase
  by_cases hp : port = ""
  · simp [hp]
  · by_cases hsk : skipFlag = false
    · simp only [hp, hsk, if_neg, if_pos, if_false, if_true]
      rw [if_pos (by decide)]
    · simp [hp, hsk]

lemma progressTrace_shape (fpsize : Nat) (ws : List Nat) : ∀ en : Nat,
    ∃ k, progressTrace fpsize en ws = List.range' en k 10 ∧ k ≤ ws.length := by
  induction ws with
  | nil =>
    intro en
    exact ⟨0, rfl, Nat.le_refl 0⟩
  | cons w ws ih =>
    intro en
    by_cases h : en ≤ w * 100 / fpsize
    · obtain ⟨k, hk, hkw⟩ := ih (en + 10)
      refine ⟨k + 1, ?_, by simp only [List.length_cons]; omega⟩
      simp only [progressTrace, if_pos h, hk]
      rfl
    · obtain ⟨k, hk, hkw⟩ := ih en
      refine ⟨k, ?_, by simp only [List.length_cons]; omega⟩
      simp only [progressTrace, if_neg h, hk]

lemma progressTrace_le (fpsize : Nat) (hpos : 0 < fpsize) (ws : List Nat) :
    ∀ en : Nat, (∀ w ∈ ws, w ≤ fpsize) →
      ∀ t ∈ progressTrace fpsize en ws, t ≤ 100 := by
  induction ws with
  | nil =>
    intro en _ t ht
    exact absurd ht (List.not_mem_nil t)
  | cons w ws ih =>
    intro en hle t ht
    simp only [progressTrace] at ht
    by_cases h : en ≤ w * 100 / fpsize
    · rw [if_pos h] at ht
      rcases List.mem_cons.mp ht with rfl | ht2
      · calc t ≤ w * 100 / fpsize := h
          _ ≤ fpsize * 100 / fpsize :=
            Nat.div_le_div_right (Nat.mul_le_mul_right 100 (hle w (List.mem_cons_self w ws)))
          _ = 100 := Nat.mul_div_cancel_left 100 hpos
      · exact ih (en + 10) (fun x hx => hle x (List.mem_cons_of_mem w hx)) t ht2
    · rw [if_neg h] at ht
      exact ih en (fun x hx => hle x (List.mem_cons_of_mem w hx)) t ht

/-! ## Claim theorems -/

/-- C3: when the declared total size is 0, the programming loop issues no
write-memory command and never invokes the progress callback, so the
division wrote * 100 / fpsize of writeh_progress is never evaluated with a
zero divisor. -/
theorem flash_zero_size_noop :
    flashWriteRun 0 = [] ∧ progressDivisorUses 0 = [] ∧ (flashWriteRun 0).length = 0 :=
  ⟨rfl, rfl, rfl⟩

/-- C9: chip id 0 is the array sentinel and is always rejected; the set of
accepted chip ids is exactly the four listed identifiers. -/
theorem chip_id_zero_rejected :
    chipIdAccepted 0 = false ∧
    (∀ v : Nat, chipIdAccepted v = true ↔
      (v = 0x0410 ∨ v = 0x0414 ∨ v = 0x0413 ∨ v = 0x0440)) :=
  ⟨by decide, chipIdAccepted_iff⟩

/-- C10: the missing-firmware-file error is unreachable: the
argument-check phase reports exactly the missing-port error when the port
string is empty, and never the missing-file error, because its guard
re-tests the port field (main.c:103) which an earlier check already
proved non-empty. -/
theorem missing_file_error_unreachable (port file : String) (skipFlag : Bool) :
    (checkPhase port file skipFlag).1 =
      (if port = "" then some SessionError.noPortArg else none) := by
  unfold checkPhase
  split_ifs <;> simp_all

/-- C4: the compatibility check accepts exactly the members of the
supported-chip-id set, and a session fails with the unsupported-chip
error precisely when it reaches the chip-id step and the reported id is
not accepted. -/
theorem chip_id_gate_correct :
    (∀ v : Nat, chipIdAccepted v = true ↔
      (v = 0x0410 ∨ v = 0x0414 ∨ v = 0x0413 ∨ v = 0x0440)) ∧
    (∀ (p : Params) (d : Device),
      (sessionRun p d).2 = some SessionError.chipUnsupported ↔
        (d.syncFails ≤ 60 ∧ d.versionOk = true ∧
         BL_MINVERSION ≤ BL_MKVER d.major d.minor ∧ d.chipOk = true ∧
         chipIdAccepted d.chipId = false)) := by
  refine ⟨chipIdAccepted_iff, fun p d => ?_⟩
  rw [sessionRun_eq]
  by_cases h : d.syncFails ≤ 60 <;> simp [h, postResult_chipUnsupported_iff]

/-- C5: the session proceeds past the version step (reaches the chip-id
command) iff the reported version packs to at least the fixed minimum 513
= 2*256+1, and otherwise fails with the version-unsupported error. -/
theorem version_gate_correct (p : Params) (d : Device) :
    BL_MINVERSION = 513 ∧
    (Event.getChipId ∈ (sessionRun p d).1 ↔
      (d.syncFails ≤ 60 ∧ d.versionOk = true ∧
       BL_MINVERSION ≤ BL_MKVER d.major d.minor)) ∧
    ((sessionRun p d).2 = some SessionError.versionUnsupported ↔
      (d.syncFails ≤ 60 ∧ d.versionOk = true ∧
       BL_MKVER d.major d.minor < BL_MINVERSION)) := by
  refine ⟨rfl, ?_, ?_⟩
  · rw [sessionRun_eq]
    by_cases h : d.syncFails ≤ 60 <;>
      simp [h, postTrace_mem_getChipId, List.mem_replicate]
  · rw [sessionRun_eq]
    by_cases h : d.syncFails ≤ 60 <;> simp [h, postResult_versionUnsupported_iff]

/-- C2 (amended): the session aborts with the handshake-timeout error iff
at least 61 consecutive stm32_init attempts fail (the loop exits once the
retry counter exceeds 60, so 60 failures followed by a success still
connect), and the number of sync attempts made is min(N+1, 61). -/
theorem handshake_timeout_iff (p : Params) (d : Device) :
    ((sessionRun p d).2 = some SessionError.handshakeTimeout ↔ 61 ≤ d.syncFails) ∧
    (sessionRun p d).1.count Event.sync = min (d.syncFails + 1) 61 := by
  rw [sessionRun_eq]
  by_cases h : d.syncFails ≤ 60
  · simp [h, postResult_ne_timeout, List.count_append, List.count_replicate,
      postTrace_count_sync]
    omega
  · simp [h, List.count_replicate]
    omega

/-- C2 counterexample: a device whose sync fails exactly 60 times still
connects and the session completes successfully, contradicting the claim
that N >= 60 failures abort with a handshake timeout. -/
theorem handshake_sixty_fails_connects :
    (sessionRun { skipFlash := true, sendGo := false }
        { syncFails := 60, versionOk := true, major := 2, minor := 1, chipOk := true,
          chipId := 0x0410, unprotectOk := true, eraseOk := true, flashOk := true,
          goOk := true }).2 = none ∧ 60 ≥ 60 := by
  refine ⟨?_, by decide⟩
  rfl

/-- C6: erase strategy selection is a pure function of the bootloader
major version: a session that reaches the erase step issues the
extended-erase command exactly once iff major = 3 and the standard erase
command exactly once iff major is not 3; a session that does not reach
the erase step issues neither. -/
theorem erase_strategy_by_major (p : Params) (d : Device) :
    (sessionRun p d).1.count Event.extendedErase =
      (if reachesErase p d ∧ d.major = 3 then 1 else 0) ∧
    (sessionRun p d).1.count Event.erase =
      (if reachesErase p d ∧ ¬d.major = 3 then 1 else 0) := by
  rw [sessionRun_eq]
  by_cases h : d.syncFails ≤ 60
  · rw [if_pos h]
    have hA : (reachesErase p d ∧ d.major = 3) ↔
        (d.versionOk = true ∧ BL_MINVERSION ≤ BL_MKVER d.major d.minor ∧
         d.chipOk = true ∧ chipIdAccepted d.chipId = true ∧ p.skipFlash = false ∧
         d.unprotectOk = true ∧ d.major = 3) := by
      unfold reachesErase
      constructor
      · rintro ⟨⟨-, a, b, c, e, f, g2⟩, hm⟩
        exact ⟨a, b, c, e, f, g2, hm⟩
      · rintro ⟨a, b, c, e, f, g2, hm⟩
        exact ⟨⟨h, a, b, c, e, f, g2⟩, hm⟩
    have hB : (reachesErase p d ∧ ¬d.major = 3) ↔
        (d.versionOk = true ∧ BL_MINVERSION ≤ BL_MKVER d.major d.minor ∧
         d.chipOk = true ∧ chipIdAccepted d.chipId = true ∧ p.skipFlash = false ∧
         d.unprotectOk = true ∧ ¬d.major = 3) := by
      unfold reachesErase
      constructor
      · rintro ⟨⟨-, a, b, c, e, f, g2⟩, hm⟩
        exact ⟨a, b, c, e, f, g2, hm⟩
      · rintro ⟨a, b, c, e, f, g2, hm⟩
        exact ⟨⟨h, a, b, c, e, f, g2⟩, hm⟩
    constructor
    · rw [List.count_append, postTrace_count_extErase, List.count_replicate]
      simp [hA]
    · rw [List.count_append, postTrace_count_erase, List.count_replicate]
      simp [hB]
  · rw [if_neg h]
    constructor <;> simp [List.count_replicate, reachesErase, h]

/-- C7: every session trace is ordered by the fixed command order (sync,
get-version, get-chip-id, write-unprotect, erase, write-flash, go); a
privileged command (erase of either kind, write-flash, go) appears only
when the handshake succeeded, the version and chip id were obtained and
the chip id passed the membership check; and write-flash appears only
when the erase command succeeded and appears in the same trace. -/
theorem session_command_order (p : Params) (d : Device) :
    List.Pairwise (fun a b => rank a ≤ rank b) (sessionRun p d).1 ∧
    ((sessionRun p d).1.countP (fun e => privileged e) ≠ 0 →
      (d.syncFails ≤ 60 ∧ d.versionOk = true ∧ d.chipOk = true ∧
       chipIdAccepted d.chipId = true)) ∧
    (Event.writeFlash ∈ (sessionRun p d).1 →
      (d.eraseOk = true ∧ eraseEvt d.major ∈ (sessionRun p d).1)) := by
  rw [sessionRun_eq]
  by_cases h : d.syncFails ≤ 60
  · rw [if_pos h]
    have hrep : (List.replicate (min (d.syncFails + 1) 61) Event.sync).countP
        (fun e => privileged e) = 0 := by
      rw [List.countP_eq_zero]
      intro a ha
      rw [List.eq_of_mem_replicate ha]
      decide
    refine ⟨?_, ?_, ?_⟩
    · rw [List.pairwise_append]
      refine ⟨pairwise_rank_replicate _, postTrace_pairwise p d, ?_⟩
      intro a ha b hb
      rw [List.eq_of_mem_replicate ha]
      exact Nat.zero_le _
    · intro hc
      have hpost : (postTrace p d).countP (fun e => privileged e) ≠ 0 := by
        intro h0
        exact hc (by rw [List.countP_append, h0, hrep])
      obtain ⟨a, b, c, e⟩ := postTrace_privileged p d hpost
      exact ⟨h, a, c, e⟩
    · intro hm
      have hm2 : Event.writeFlash ∈ postTrace p d := by
        rcases List.mem_append.mp hm with h1 | h2
        · exact absurd (List.eq_of_mem_replicate h1) (by decide)
        · exact h2
      obtain ⟨he, hmem⟩ := postTrace_writeFlash p d hm2
      exact ⟨he, List.mem_append.mpr (Or.inr hmem)⟩
  · rw [if_neg h]
    refine ⟨pairwise_rank_replicate _, ?_, ?_⟩
    · intro hc
      exfalso
      apply hc
      rw [List.countP_eq_zero]
      intro a ha
      rw [List.eq_of_mem_replicate ha]
      decide
    · intro hm
      exact absurd (List.eq_of_mem_replicate hm) (by decide)

/-- C8: passing the one-character file argument "0" behaves exactly as if
the skip-programming flag were set: the whole run is identical to a run
with the flag, the firmware file is not opened, and no write-unprotect,
erase or write-flash command is issued. -/
theorem file_arg_zero_skips_flash (port : String) (g : Bool) (d : Device) :
    programRun port "0" false g d = programRun port "0" true g d ∧
    (programRun port "0" false g d).2.2 = false ∧
    ((programRun port "0" false g d).1.filter (fun e => flashCmd e)) = [] := by
  have h0 := checkPhase_zero_file port false
  have h1 := checkPhase_zero_file port true
  by_cases hp : port = ""
  · rw [if_pos hp] at h0 h1
    unfold programRun
    rw [h0, h1]
    exact ⟨rfl, rfl, rfl⟩
  · rw [if_neg hp] at h0 h1
    unfold programRun
    rw [h0, h1]
    exact ⟨rfl, rfl, sessionRun_skip_no_flashCmd g d⟩

/-- C1 (amended): over any run against a positive total size with every
reported bytesWritten bounded by the total, the thresholds printed by
writeh_progress form the consecutive run 10, 20, ..., 10*k for some k;
each invocation fires at most once (so k never exceeds the number of
invocations), each threshold is printed at most once, in strictly
increasing order, every printed threshold lies between 10 and 100, and at
most 10 thresholds are ever printed.  An invocation that crosses several
10 percent boundaries fires only for the lowest pending threshold; the
remaining boundaries are reported only by later invocations. -/
theorem progress_thresholds_shape (fpsize : Nat) (writes : List Nat)
    (hpos : 0 < fpsize) (hle : ∀ w ∈ writes, w ≤ fpsize) :
    progressRun fpsize writes =
      List.range' 10 (progressRun fpsize writes).length 10 ∧
    (progressRun fpsize writes).length ≤ 10 ∧
    (progressRun fpsize writes).length ≤ writes.length ∧
    List.Pairwise (fun a b => a < b) (progressRun fpsize writes) ∧
    (progressRun fpsize writes).all (fun t => decide (10 ≤ t ∧ t ≤ 100)) = true := by
  obtain ⟨k, hk, hkw⟩ := progressTrace_shape fpsize writes 10
  have hub : ∀ t ∈ progressRun fpsize writes, t ≤ 100 :=
    progressTrace_le fpsize hpos writes 10 hle
  have hrun : progressRun fpsize writes = List.range' 10 k 10 := hk
  have hlen : (progressRun fpsize writes).length = k := by
    rw [hrun, List.length_range']
  have hk10 : k ≤ 10 := by
    by_contra hgt
    have hmem : (10 : Nat) + 10 * 10 ∈ List.range' 10 k 10 :=
      List.mem_range'.mpr ⟨10, by omega, rfl⟩
    have := hub (10 + 10 * 10) (by rw [hrun]; exact hmem)
    omega
  refine ⟨by rw [hlen, hrun], by omega, by omega, ?_, ?_⟩
  · rw [hrun]
    exact List.pairwise_lt_range' 10 k 10 (by omega)
  · rw [List.all_eq_true]
    intro t ht
    have h1 := hub t ht
    rw [hrun] at ht
    obtain ⟨i, hi, rfl⟩ := List.mem_range'.mp ht
    simp only [decide_eq_true_eq]
    omega

/-- C1 witness: the amended statement evaluated for totalSize 100 and the
invocation sequence 30, 100: exactly the thresholds 10 and 20 fire. -/
theorem progress_thresholds_shape_witness :
    progressRun 100 [30, 100] =
      List.range' 10 (progressRun 100 [30, 100]).length 10 ∧
    (progressRun 100 [30, 100]).length ≤ 10 ∧
    (progressRun 100 [30, 100]).length ≤ ([30, 100] : List Nat).length ∧
    List.Pairwise (fun a b => a < b) (progressRun 100 [30, 100]) ∧
    (progressRun 100 [30, 100]).all (fun t => decide (10 ≤ t ∧ t ≤ 100)) = true :=
  progress_thresholds_shape 100 [30, 100] (by decide) (by decide)

/-- C1 counterexample: totalSize 100 with the single invocation at
bytesWritten 100 is non-decreasing and reaches the total, crossing every
10 percent boundary, yet the callback fires exactly once, printing only
the threshold 10; the 100 percent boundary is never reported, so the
callback does not fire once per crossed boundary. -/
theorem progress_single_call_counterexample :
    progressRun 100 [100] = [10] ∧ (progressRun 100 [100]).count 100 = 0 :=
  ⟨rfl, rfl⟩

end Stm32ld
